import Mathlib

/-!
A shallow embedding of the `cli` Go package (command line application
structure): the flag model (`Flag`), the flag-scanning state machine
(`Parse`), registration and dispatch (`CLIm.add`, `CLIm.initFlags`,
`CLIm.run`), and the suggestion engine (`levenshtein`,
`similarCommands`), together with theorems about them.

Go strings are UTF-8 byte sequences and the Go code indexes and slices
them at the byte level.  We model a Go string as a Lean `String`
(a list of unicode scalar values) together with an explicit UTF-8
encoder `strBytes` used wherever the Go code works on raw bytes
(`levenshtein`, `strings.HasPrefix`, and the first-byte tests of the
parser).  Bytes are `Nat` values below 256.

All slicing done by the parser happens at ASCII delimiters (`-` and
`=`), which in UTF-8 occur only as complete one-byte characters, so
byte-level slicing coincides with character-level slicing there; the
parser is therefore modelled on `String.data` directly, except for the
`unicode.IsLetter(rune(arg[0]))` test which genuinely inspects the
first byte and is modelled by `goIsLetterFirst`.
-/

namespace Cli

/-- UTF-8 encoding of a single character, as bytes (each < 256). -/
def charBytes (c : Char) : List Nat :=
  let n := c.toNat
  if n < 0x80 then [n]
  else if n < 0x800 then [0xC0 ||| (n >>> 6), 0x80 ||| (n &&& 0x3F)]
  else if n < 0x10000 then
    [0xE0 ||| (n >>> 12), 0x80 ||| ((n >>> 6) &&& 0x3F), 0x80 ||| (n &&& 0x3F)]
  else
    [0xF0 ||| (n >>> 18), 0x80 ||| ((n >>> 12) &&& 0x3F),
     0x80 ||| ((n >>> 6) &&& 0x3F), 0x80 ||| (n &&& 0x3F)]

/-- The UTF-8 bytes of a string: the byte sequence a Go `string` holds. -/
def strBytes (s : String) : List Nat := s.data.flatMap charBytes

/-- Model of `unicode.IsLetter(r)` for a code point `r < 256` (the Go Latin-1 fast
path): ASCII letters plus `ª`, `µ`, `º` and the Latin-1 letter ranges
`0xC0–0xD6`, `0xD8–0xF6`, `0xF8–0xFF`. -/
def isLetterByte (b : Nat) : Bool :=
  (0x41 ≤ b && b ≤ 0x5A) || (0x61 ≤ b && b ≤ 0x7A) ||
  b == 0xAA || b == 0xB5 || b == 0xBA ||
  (0xC0 ≤ b && b ≤ 0xD6) || (0xD8 ≤ b && b ≤ 0xF6) || (0xF8 ≤ b && b ≤ 0xFF)

/-- First UTF-8 byte of a character (`charBytes` is never empty). -/
def firstByte (c : Char) : Nat := (charBytes c).headD 0

/-- Model of the parser test `unicode.IsLetter(rune(arg[0]))`: Go converts the
FIRST BYTE of the remainder to a rune (a code point < 256) and asks
whether that code point is a letter. -/
def goIsLetterFirst (c : Char) : Bool := isLetterByte (firstByte c)

/-! ## levenshtein.go -/

/-- Maximum levenshtein distance at which a command is similar. -/
def similarThreshold : Nat := 5

/-- Inner loop of `levenshtein`: given the current row prefix value
`cur = v1[j]` and the suffixes of `t` (from index `j`) and of the
previous row `v0` (from index `j`), produce `v1[j+1..]`. -/
def levRow (si : Nat) : List Nat → List Nat → Nat → List Nat
  | tj :: tb, d :: u :: v0, cur =>
      let cost := if si = tj then 0 else 1
      let next := min (min (cur + 1) (u + 1)) (d + cost)
      next :: levRow si tb (u :: v0) next
  | _, _, _ => []

/-- Outer loop of `levenshtein`: fold each byte of `s` over the row. -/
def levLoop : List Nat → List Nat → List Nat → Nat → List Nat
  | [], _, v0, _ => v0
  | si :: srest, tb, v0, i =>
      levLoop srest tb ((i + 1) :: levRow si tb v0 (i + 1)) (i + 1)

/-- Function `levenshtein` returns the levenshtein distance of `s` from `t`,
computed by the two-row dynamic program of `levenshtein.go` over the
UTF-8 byte sequences of `s` and `t`. -/
def levenshtein (s t : String) : Nat :=
  if s = t then 0
  else
    let sb := strBytes s
    let tb := strBytes t
    if sb.length = 0 then tb.length
    else if tb.length = 0 then sb.length
    else (levLoop sb tb (List.range (tb.length + 1)) 0).getLastD 0

/-! ## Flag -/

/-- A flag: name, optional short alias (`""` when absent), kind
(abstracted to its parser-relevant capability `kind.HasArg()`),
environment key, last accepted raw value, occurrence count and default
value.  The typed destination slot mirrors `kind.Parse value` and
carries no extra information for the string kind, so it is not
represented separately. -/
structure Flag where
  name : String
  aliasName : String
  hasArg : Bool
  envKey : String
  value : String
  count : Nat
  defaultValue : String
deriving DecidableEq

/-- Model of `Flag.Set`: increment the occurrence count and store the raw value. -/
def Flag.set (f : Flag) (v : String) : Flag :=
  { f with count := f.count + 1, value := v }

/-- Model of `Flag.IsSet`: it is `count > 0`. -/
def Flag.IsSet (f : Flag) : Bool := f.count > 0

/-- Environment pre-seeding of one flag: `os.LookupEnv(f.envKey)`
followed by `f.Set` when the variable is present. -/
def Flag.preseed (env : String → Option String) (f : Flag) : Flag :=
  match env f.envKey with
  | some v => f.set v
  | none => f

/-! ## Parse (cli.go)

The Go `Parse` builds a map `m` from each flag's name and alias to the
flag (later insertions overwrite earlier ones) and mutates flags
through pointers.  We model the flag store as a `List Flag` whose
positions are the identities, lookups as `flagLookup` (the LAST flag
in list order whose name or non-empty alias equals the key, matching
map insertion order), and mutation as `setAt`. -/

/-- Whether `m[key]` would resolve to `f`: `m[f.name] = f` and, when
the alias is non-empty, `m[f.alias] = f`. -/
def keyMatches (f : Flag) (key : String) : Bool :=
  f.name == key || (f.aliasName != "" && f.aliasName == key)

/-- Index and value of the flag the map `m` associates with `key`:
the last match in list order wins, as with Go map insertion. -/
def flagLookup : List Flag → String → Option (Nat × Flag)
  | [], _ => none
  | f :: fs, key =>
    match flagLookup fs key with
    | some (i, g) => some (i + 1, g)
    | none => if keyMatches f key then some (0, f) else none

/-- Mutation `f.Set v` applied to the flag at position `i` of the store. -/
def setAt : List Flag → Nat → String → List Flag
  | [], _, _ => []
  | f :: fs, 0, v => f.set v :: fs
  | f :: fs, i + 1, v => f :: setAt fs i v

/-- Model of the `strings.Index(arg, "=")` split at the first `'='`, returning the
key part and the value part, or `none` when no `'='` occurs.  (A `'='`
byte in UTF-8 is always the one-byte character `'='`, so byte-level
and character-level splitting agree.) -/
def splitFirstEq : List Char → Option (List Char × List Char)
  | [] => none
  | c :: cs =>
    if c = '=' then some ([], cs)
    else
      match splitFirstEq cs with
      | none => none
      | some (k, v) => some (c :: k, v)

/-- Errors returned by `Parse` (error.go).  `flagSyn` is
`ErrFlagSyntax`, `undefinedFlag` is `ErrUndefinedFlag`, `requiresArg`
is `ErrRequiresArg`. -/
inductive ParseError where
  | flagSyn (arg : String)
  | undefinedFlag (key : String)
  | requiresArg (key : String)
deriving DecidableEq

/-- Outcome of `Parse`.  Because the Go code mutates flags through
pointers, the caller observes the (partially) mutated flag store even
when `Parse` returns an error or panics, so every outcome carries the
final flag store.  `panic` models a Go runtime panic (string index out
of range). -/
inductive ParseOutcome where
  | ok (args : List String) (flags : List Flag)
  | err (e : ParseError) (flags : List Flag)
  | panic (flags : List Flag)
deriving DecidableEq

/-- Model of the code after the scan loop of `Parse`: `args` is what
remains (including a pushed-back terminator or positional token),
`key` the possibly pending flag key. -/
def parseFinish (strict : Bool) (flags : List Flag) (key : String)
    (args : List String) : ParseOutcome :=
  if key = "" then .ok args flags
  else
    match flagLookup flags key with
    | some (i, f) =>
      if f.hasArg then .err (.requiresArg key) flags
      else .ok args (setAt flags i "true")
    | none =>
      if strict then .err (.undefinedFlag key) flags
      else .ok args flags

/-- Hyphen stripping of the no-pending branch: `arg = arg[2:]` when
the second byte is also `-`, else `arg = arg[1:]` (applied to the
characters after the leading `-`). -/
def stripDashes (cs : List Char) : List Char :=
  if cs.head? = some '-' then cs.tail else cs

/-- Result of examining one token with no pending key: either a final
outcome, or the scan continues on the remaining tokens with a new
store and pending key. -/
inductive StepRes where
  | done (o : ParseOutcome)
  | cont (flags : List Flag) (key : String)

/-- Model of the no-pending-key branch of the scan loop: the current
token is positional (scanning stops), or syntactically bad, or opens
a flag (`=`-form sets it at once, otherwise its key becomes pending).
`.panic` marks an `arg[0]` index that cannot actually be out of range
here (`arg` is non-empty past the guards). -/
def openTok (strict : Bool) (flags : List Flag) (arg : String)
    (rest : List String) : StepRes :=
  match arg.data with
  | [] => .done (.ok (arg :: rest) flags)
  | c :: cs =>
    if c ≠ '-' then .done (.ok (arg :: rest) flags)
    else
      match stripDashes cs with
      | [] => .done (.panic flags)
      | c0 :: _ =>
        if goIsLetterFirst c0 = false then
          .done (.err (.flagSyn (String.mk (stripDashes cs))) flags)
        else
          match splitFirstEq (stripDashes cs) with
          | none => .cont flags (String.mk (stripDashes cs))
          | some (k, v) =>
            match flagLookup flags (String.mk k) with
            | none =>
              if strict then .done (.err (.undefinedFlag (String.mk k)) flags)
              else .cont flags (String.mk k)
            | some (i, _) => .cont (setAt flags i (String.mk v)) ""

/-- Model of the scan loop of `Parse`, one token at a time, holding the
pending flag key (`""` when empty).  Each branch is a direct
transcription of the corresponding branch of the Go loop.  Where the
Go code pushes the current token back and re-enters the loop with the
key cleared (the no-argument-flag branch), this model applies
`openTok` to the same token directly — the token is unchanged and not
`-`/`--`, so re-entering the loop is exactly `openTok`.  `.panic`
marks the one place the Go code indexes `arg[0]` without an
empty-string guard. -/
def parseLoop (strict : Bool) (flags : List Flag) (key : String) :
    List String → ParseOutcome
  | [] => parseFinish strict flags key []
  | arg :: rest =>
    if arg = "-" ∨ arg = "--" then
      parseFinish strict flags key (arg :: rest)
    else if key ≠ "" then
      match flagLookup flags key with
      | none =>
        if strict then .err (.undefinedFlag key) flags
        else parseLoop strict flags key rest
      | some (i, f) =>
        if f.hasArg = false then
          match openTok strict (setAt flags i "true") arg rest with
          | .done o => o
          | .cont flags2 key2 => parseLoop strict flags2 key2 rest
        else
          match arg.data with
          | [] => .panic flags
          | c :: _ =>
            if c = '-' then .err (.requiresArg key) flags
            else parseLoop strict (setAt flags i arg) "" rest
    else
      match openTok strict flags arg rest with
      | .done o => o
      | .cont flags2 key2 => parseLoop strict flags2 key2 rest

/-- Model of `Parse(args, flags, strict)`: build the lookup table, pre-seed
every flag from the environment (`env` models `os.LookupEnv`), then
scan. -/
def Parse (env : String → Option String) (args : List String)
    (flags : List Flag) (strict : Bool) : ParseOutcome :=
  parseLoop strict (flags.map (Flag.preseed env)) "" args

/-! ## Suggestion engine (commandNotFound) -/

/-- Model of Go `strings.HasPrefix(s, pre)`: a byte-level test. -/
def goStartsWith (pre s : String) : Bool :=
  List.isPrefixOf (strBytes pre) (strBytes s)

/-- Distance `commandNotFound` assigns a registered command name:
`0` when the registered name starts with the requested name, else the
levenshtein distance between the two. -/
def suggestDistance (name cmdName : String) : Nat :=
  if goStartsWith name cmdName then 0 else levenshtein name cmdName

/-- Suggestion list of `commandNotFound`: every registered command
name whose distance from the requested name is below
`similarThreshold`, sorted lexicographically (`sort.Strings`).  The
input list holds the registered command names (the Go code ranges
over a map, whose iteration order the final sort makes irrelevant). -/
def similarCommands (commands : List String) (name : String) : List String :=
  List.insertionSort (· ≤ ·)
    (commands.filter (fun c => suggestDistance name c < similarThreshold))

/-! ## Registration and dispatch (New / Add / initFlags / run)

Handlers are opaque business logic: a handler takes the positional
arguments and returns `none` for success or an error.  Output writing
(usage text, suggestions, version printing) is external to this model;
the errors the dispatch engine itself produces are enumerated in
`CliError`. -/

/-- Model of `strings.ToLower` on the ASCII range (the registered
names this library manipulates; Go additionally folds non-ASCII
letters). -/
def goToLower (s : String) : String :=
  String.mk (s.data.map (fun c =>
    if 'A' ≤ c ∧ c ≤ 'Z' then Char.ofNat (c.toNat + 32) else c))

/-- Model of `strings.ToUpper` on the ASCII range. -/
def goToUpper (s : String) : String :=
  String.mk (s.data.map (fun c =>
    if 'a' ≤ c ∧ c ≤ 'z' then Char.ofNat (c.toNat - 32) else c))

/-- Replacement table of `mapper`: `.`, `/`, `-`, `,` become `_`. -/
def mapperReplace (s : String) : String :=
  String.mk (s.data.map (fun c =>
    if c = '.' ∨ c = '/' ∨ c = '-' ∨ c = ',' then '_' else c))

/-- Derivation of a missing environment key:
`ToUpper(cliName + "_" + name)` with separator characters mapped to
underscore; an explicit key is kept. -/
def deriveEnvKey (cliName : String) (f0 : Flag) : Flag :=
  if f0.envKey = ""
  then { f0 with envKey := mapperReplace (goToUpper (cliName ++ "_" ++ f0.name)) }
  else f0

/-- Errors observable from `run` and its callees. -/
inductive CliError where
  | parseErr (e : ParseError)
  | mustHaveArgs
  | duplicateFlag (name : String)
  | duplicateShortFlag (aliasName name : String)
  | unknownCommand
  | noCommand
  | handlerErr (msg : String)

/-- A command handler (`Handler func(args []string) error`);
`none` models a nil error. -/
def Handler := List String → Option CliError

/-- A command: lower-cased name, optional alias (`""` when absent),
command-scoped flags and the handler.  The usage string and
middleware of other snapshots play no role here and are omitted. -/
structure Command where
  name : String
  aliasName : String
  flags : List Flag
  handler : Handler

/-- Lookup in an association-list model of a Go map (keys are inserted
at most once, so the first match is the entry). -/
def lookupAssoc {α : Type} (m : List (String × α)) (key : String) : Option α :=
  (m.find? (fun p => p.1 == key)).map (fun p => p.2)

/-- Registration-relevant state of a `CLI` value. -/
structure CLIm where
  name : String
  strict : Bool
  flags : List Flag
  flagsMap : List (String × Flag)
  commands : List Command
  commandsMap : List (String × Command)
  version : String
  afterParse : Option Handler
  defaultHandler : Handler

/-- Model of `CLI.Add`: lower-case the name, reject a nil handler and
a duplicate name, register the command, then reject a colliding alias
(the alias is looked up after the name is inserted, so an alias equal
to the name of the command itself also collides).  A Go `panic` is modelled
as `Except.error` with the panic message. -/
def CLIm.add (c : CLIm) (name0 : String) (handler : Option Handler)
    (flags : List Flag) (aliasName : String) : Except String CLIm :=
  let name := goToLower name0
  match handler with
  | none => .error ("cli: command " ++ name ++ " has nil handler")
  | some h =>
    match lookupAssoc c.commandsMap name with
    | some _ => .error ("cli: duplicate command " ++ name)
    | none =>
      let cmd : Command :=
        { name := name, aliasName := aliasName, flags := flags, handler := h }
      let c := { c with commands := c.commands ++ [cmd],
                        commandsMap := c.commandsMap ++ [(name, cmd)] }
      if cmd.aliasName = "" then .ok c
      else
        match lookupAssoc c.commandsMap cmd.aliasName with
        | some dup =>
          .error ("cli: duplicate command alias " ++ cmd.aliasName ++ " for " ++ dup.name)
        | none =>
          .ok { c with commandsMap := c.commandsMap ++ [(cmd.aliasName, cmd)] }

/-- Model of `New`: store the global flags WITHOUT any duplicate
check, then register the built-in `help` command and, when a version
string is configured, the built-in `version` command.  The functional
options are collapsed into explicit arguments. -/
def CLIm.new (name : String) (strict : Bool) (flags : List Flag)
    (version : String) (helpHandler defaultHandler : Handler)
    (afterParse : Option Handler) : Except String CLIm :=
  let c : CLIm :=
    { name := name, strict := strict, flags := flags, flagsMap := [],
      commands := [], commandsMap := [], version := version,
      afterParse := afterParse, defaultHandler := defaultHandler }
  match c.add "help" (some helpHandler) [] "" with
  | .error e => .error e
  | .ok c =>
    if version ≠ "" then c.add "version" (some (fun _ => none)) [] ""
    else .ok c

/-- Model of `initFlags`: walk the given flags, deriving each missing
environment key and failing on a name or alias already present in the
accumulated application flag map; returns the grown map and the
updated flags.  (Go mutates the flags through pointers; deriving the
key before the map inserts is observationally the same.) -/
def initFlags (cliName : String) (m : List (String × Flag)) :
    List Flag → Except CliError (List (String × Flag) × List Flag)
  | [] => .ok (m, [])
  | f0 :: fs =>
    match lookupAssoc m (deriveEnvKey cliName f0).name with
    | some _ => .error (.duplicateFlag (deriveEnvKey cliName f0).name)
    | none =>
      if (deriveEnvKey cliName f0).aliasName = "" then
        match initFlags cliName
            (m ++ [((deriveEnvKey cliName f0).name, deriveEnvKey cliName f0)]) fs with
        | .error e => .error e
        | .ok (m2, fs2) => .ok (m2, deriveEnvKey cliName f0 :: fs2)
      else
        match lookupAssoc
            (m ++ [((deriveEnvKey cliName f0).name, deriveEnvKey cliName f0)])
            (deriveEnvKey cliName f0).aliasName with
        | some dup =>
          .error (.duplicateShortFlag (deriveEnvKey cliName f0).aliasName dup.name)
        | none =>
          match initFlags cliName
              (m ++ [((deriveEnvKey cliName f0).name, deriveEnvKey cliName f0),
                     ((deriveEnvKey cliName f0).aliasName, deriveEnvKey cliName f0)]) fs with
          | .error e => .error e
          | .ok (m2, fs2) => .ok (m2, deriveEnvKey cliName f0 :: fs2)

/-- Outcome of the `parse` method (`c.parse(args, flags)`). -/
inductive ParseMOut where
  | ok (c : CLIm) (args : List String) (flags : List Flag)
  | err (e : CliError)
  | panicked

/-- Model of the `parse` method: require a non-empty argument vector,
populate the application flag map (`initFlags`), then scan
`args[1:]`. -/
def CLIm.parseM (env : String → Option String) (c : CLIm)
    (args : List String) (flags : List Flag) : ParseMOut :=
  match args with
  | [] => .err .mustHaveArgs
  | _ :: rest =>
    match initFlags c.name c.flagsMap flags with
    | .error e => .err e
    | .ok (m, flags2) =>
      let c := { c with flagsMap := m }
      match Parse env rest flags2 c.strict with
      | .ok args2 flags3 => .ok c args2 flags3
      | .err e _ => .err (.parseErr e)
      | .panic _ => .panicked

/-- Result of `run`: the returned Go error (`none` = nil), or a
runtime panic propagating out of `Parse`. -/
inductive RunRes where
  | ret (e : Option CliError)
  | panicked

/-- Model of `run`: parse global flags, dispatch on the first
remaining positional token (default handler when there is none,
command-not-found error when it resolves to nothing), parse the
command-scoped flags, run the optional after-parse hook (skipped for
`help`/`version`), then the command handler. -/
def CLIm.run (env : String → Option String) (c : CLIm)
    (args : List String) : RunRes :=
  match c.parseM env args c.flags with
  | .panicked => .panicked
  | .err e => .ret (some e)
  | .ok c args _ =>
    match args with
    | [] => .ret (c.defaultHandler args)
    | name :: _ =>
      match lookupAssoc c.commandsMap name with
      | none => .ret (some .unknownCommand)
      | some cmd =>
        match c.parseM env args cmd.flags with
        | .panicked => .panicked
        | .err e => .ret (some e)
        | .ok c args _ =>
          match c.afterParse with
          | some hook =>
            if name ≠ "help" ∧ name ≠ "version" then
              match hook args with
              | some e => .ret (some e)
              | none => .ret (cmd.handler args)
            else .ret (cmd.handler args)
          | none => .ret (cmd.handler args)

/-! ## Helper lemmas -/

/-- Syntactic well-formedness of a flag name: non-empty, first byte a
letter, no `=` character. -/
def validName (n : String) : Bool :=
  match n.data with
  | [] => false
  | c :: _ => goIsLetterFirst c && !(n.data.contains '=')

theorem data_append (a b : String) : (a ++ b).data = a.data ++ b.data := rfl

theorem mk_data (s : String) : String.mk s.data = s := rfl

theorem ne_of_data_ne {a b : String} (h : a.data ≠ b.data) : a ≠ b :=
  fun he => h (he ▸ rfl)

theorem str_ext {a b : String} (h : a.data = b.data) : a = b := by
  cases a
  cases b
  simp only at h
  rw [h]

theorem letter_ne_dash {c : Char} (h : goIsLetterFirst c = true) : c ≠ '-' := by
  intro he
  subst he
  simp [goIsLetterFirst, firstByte, charBytes, isLetterByte] at h

theorem splitFirstEq_none {l : List Char} (h : l.contains '=' = false) :
    splitFirstEq l = none := by
  induction l with
  | nil => rfl
  | cons c cs ih =>
    simp only [List.contains_cons, Bool.or_eq_false_iff] at h
    have hc : c ≠ '=' := by
      intro he
      subst he
      simp at h
    simp [splitFirstEq, hc, ih h.2]

theorem splitFirstEq_append {k : List Char} (v : List Char)
    (h : k.contains '=' = false) :
    splitFirstEq (k ++ '=' :: v) = some (k, v) := by
  induction k with
  | nil => simp [splitFirstEq]
  | cons c cs ih =>
    simp only [List.contains_cons, Bool.or_eq_false_iff] at h
    have hc : c ≠ '=' := by
      intro he
      subst he
      simp at h
    simp [splitFirstEq, hc, ih h.2]

/-! ## C8 -/

/-- C8: the `levenshtein` function computes the Levenshtein edit
distance over byte sequences: `levenshtein "kitten" "sitting" = 3`,
`levenshtein "Saturday" "Sunday" = 3`, and `levenshtein s s = 0` for
every string `s`. -/
theorem levenshtein_spec :
    levenshtein "kitten" "sitting" = 3 ∧
    levenshtein "Saturday" "Sunday" = 3 ∧
    ∀ s : String, levenshtein s s = 0 := by
  refine ⟨by decide, by decide, fun s => ?_⟩
  simp [levenshtein]

/-! ## C5 -/

/-- C5: when the scanner holds no pending flag key and the current
token is the literal `-` or `--`, flag scanning terminates: the
terminator and every token after it are returned as positional
arguments, unconsumed and in input order, and the flag store is left
untouched (none of them is interpreted as a flag). -/
theorem parse_terminator (strict : Bool) (flags : List Flag) (t : String)
    (rest : List String) (ht : t = "-" ∨ t = "--") :
    parseLoop strict flags "" (t :: rest) = .ok (t :: rest) flags := by
  rcases ht with h | h <;> subst h <;> simp [parseLoop, parseFinish]

/-- Witness for C5 at a concrete input. -/
theorem parse_terminator_witness :
    ("--" = "-" ∨ "--" = "--") ∧
    parseLoop true [] "" ["--", "a", "-b"] = .ok ["--", "a", "-b"] [] :=
  ⟨Or.inr rfl, parse_terminator true [] "--" ["a", "-b"] (Or.inr rfl)⟩

/-! ## C9 -/

/-- C9: `Parse` is not total: with a string-kind flag `s` pending, the
parser inspects the first byte of the current token without the
empty-string guard the no-pending branch has, so `Parse` on
`["-s", ""]` reaches an out-of-range index access (a Go panic) instead
of returning a result or an error — under strict and lenient mode
alike. -/
theorem parse_panics_on_empty_value :
    Parse (fun _ => none) ["-s", ""]
      [{ name := "s", aliasName := "", hasArg := true, envKey := "K",
         value := "", count := 0, defaultValue := "" }] true =
      .panic [{ name := "s", aliasName := "", hasArg := true, envKey := "K",
                value := "", count := 0, defaultValue := "" }] ∧
    Parse (fun _ => none) ["-s", ""]
      [{ name := "s", aliasName := "", hasArg := true, envKey := "K",
         value := "", count := 0, defaultValue := "" }] false =
      .panic [{ name := "s", aliasName := "", hasArg := true, envKey := "K",
                value := "", count := 0, defaultValue := "" }] := by
  constructor <;> rfl

/-! ## C7 -/

/-- C7: on an unresolved command name, the suggestion engine gives
every registered name distance `0` when it starts with the requested
name, else its levenshtein distance; exactly the names with distance
strictly below the threshold `5` are collected, sorted
lexicographically, and an empty collection means no suggestion block
is shown. -/
theorem commandNotFound_suggestions (cmds : List String) (name : String) :
    (∀ c, c ∈ similarCommands cmds name ↔
      c ∈ cmds ∧ suggestDistance name c < similarThreshold) ∧
    (similarCommands cmds name).Sorted (fun a b => a ≤ b) ∧
    (similarCommands cmds name = [] ↔
      ∀ c ∈ cmds, ¬ suggestDistance name c < similarThreshold) ∧
    (∀ c, suggestDistance name c =
      if goStartsWith name c then 0 else levenshtein name c) := by
  have hperm : (similarCommands cmds name).Perm
      (cmds.filter (fun c => suggestDistance name c < similarThreshold)) :=
    List.perm_insertionSort _ _
  refine ⟨fun c => ?_, ?_, ?_, fun c => rfl⟩
  · rw [hperm.mem_iff, List.mem_filter]
    simp
  · exact List.sorted_insertionSort _ _
  · constructor
    · intro h c hc hlt
      have : c ∈ similarCommands cmds name := by
        rw [hperm.mem_iff, List.mem_filter]
        simp [hc, hlt]
      rw [h] at this
      exact absurd this (List.not_mem_nil c)
    · intro h
      have hf : cmds.filter (fun c => suggestDistance name c < similarThreshold) = [] := by
        rw [List.filter_eq_nil_iff]
        intro a ha
        simpa using h a ha
      have := hperm
      rw [hf] at this
      exact this.eq_nil

/-! ## Parser stepping lemmas -/

theorem validName_parts {n : String} (h : validName n = true) :
    ∃ c cs, n.data = c :: cs ∧ goIsLetterFirst c = true ∧
      n.data.contains '=' = false := by
  unfold validName at h
  rcases hd : n.data with _ | ⟨c, cs⟩
  · rw [hd] at h
    simp at h
  · rw [hd] at h
    simp only [Bool.and_eq_true, Bool.not_eq_true'] at h
    exact ⟨c, cs, rfl, h.1, hd ▸ h.2⟩

theorem validName_ne_empty {n : String} (h : validName n = true) : n ≠ "" := by
  obtain ⟨c, cs, hd, _, _⟩ := validName_parts h
  apply ne_of_data_ne
  rw [hd]
  intro he
  cases he

/-- Tokens built from a hyphen block, a valid name and a tail are
never the bare terminators. -/
theorem preName_tail_ne_term {n pre : String} (hpre : pre = "-" ∨ pre = "--")
    (hn : validName n = true) (t : String) :
    ¬ (pre ++ n ++ t = "-" ∨ pre ++ n ++ t = "--") := by
  obtain ⟨c, cs, hd, hletter, _⟩ := validName_parts hn
  have hcne : c ≠ '-' := letter_ne_dash hletter
  have hdata : (pre ++ n ++ t).data = pre.data ++ (c :: cs) ++ t.data := by
    simp [data_append, hd]
  rintro (h | h) <;> rcases hpre with hp | hp <;> subst hp <;>
    (have h2 := congrArg String.data h
     rw [hdata] at h2
     simp only [show ("-" : String).data = ['-'] from rfl,
       show ("--" : String).data = ['-', '-'] from rfl] at h2
     simp at h2) <;>
    first
      | exact hcne h2.1
      | exact hcne h2.2.1

theorem preName_ne_term {n pre : String} (hpre : pre = "-" ∨ pre = "--")
    (hn : validName n = true) :
    ¬ (pre ++ n = "-" ∨ pre ++ n = "--") := by
  have h := preName_tail_ne_term hpre hn ""
  have he : pre ++ n ++ "" = pre ++ n := by
    apply str_ext
    simp [data_append]
  rw [he] at h
  exact h

/-- Opening token, no `=`: `-name` or `--name` makes `name` the
pending key. -/
theorem openTok_open {n : String} (strict : Bool) (flags : List Flag)
    (rest : List String) (pre : String) (hpre : pre = "-" ∨ pre = "--")
    (hn : validName n = true) :
    openTok strict flags (pre ++ n) rest = .cont flags n := by
  obtain ⟨c, cs, hd, hletter, hnoeq⟩ := validName_parts hn
  have hcne : c ≠ '-' := letter_ne_dash hletter
  have hsplit2 : splitFirstEq (c :: cs) = none := by
    rw [← hd]
    exact splitFirstEq_none hnoeq
  have hmk : String.mk (c :: cs) = n := by
    rw [← hd]
  rcases hpre with h | h <;> subst h <;>
    simp [openTok, stripDashes, data_append, hd, hcne, hletter, hsplit2, hmk]

/-- Opening token with `=`: `-name=v` (or `--name=v`) sets the flag at
once when the key resolves. -/
theorem openTok_openEq {n : String} (strict : Bool) (flags : List Flag)
    (rest : List String) (pre v : String) (i : Nat) (f : Flag)
    (hpre : pre = "-" ∨ pre = "--") (hn : validName n = true)
    (hlk : flagLookup flags n = some (i, f)) :
    openTok strict flags (pre ++ n ++ "=" ++ v) rest =
      .cont (setAt flags i v) "" := by
  obtain ⟨c, cs, hd, hletter, hnoeq⟩ := validName_parts hn
  have hcne : c ≠ '-' := letter_ne_dash hletter
  have hmk : String.mk (c :: cs) = n := by
    rw [← hd]
  have hsplit2 : splitFirstEq (c :: (cs ++ '=' :: v.data)) = some (c :: cs, v.data) := by
    have := splitFirstEq_append v.data hnoeq
    rw [hd] at this
    simpa using this
  have hlk2 : flagLookup flags (String.mk (c :: cs)) = some (i, f) := by
    rw [hmk]
    exact hlk
  have hdata : (pre ++ n ++ "=" ++ v).data = pre.data ++ (c :: (cs ++ '=' :: v.data)) := by
    simp [data_append, hd]
  rcases hpre with h | h <;> subst h <;>
    simp [openTok, stripDashes, hdata, hcne, hletter, hsplit2, hlk2, mk_data]

/-- Scan-loop version of `openTok_open`. -/
theorem parseLoop_open {n : String} (strict : Bool) (flags : List Flag)
    (rest : List String) (pre : String) (hpre : pre = "-" ∨ pre = "--")
    (hn : validName n = true) :
    parseLoop strict flags "" ((pre ++ n) :: rest) =
      parseLoop strict flags n rest := by
  have hne : ¬ ((pre ++ n) = "-" ∨ (pre ++ n) = "--") := preName_ne_term hpre hn
  rw [parseLoop]
  simp only [hne, if_false]
  rw [openTok_open strict flags rest pre hpre hn]
  simp

/-- Scan-loop version of `openTok_openEq`. -/
theorem parseLoop_openEq {n : String} (strict : Bool) (flags : List Flag)
    (rest : List String) (pre v : String) (i : Nat) (f : Flag)
    (hpre : pre = "-" ∨ pre = "--") (hn : validName n = true)
    (hlk : flagLookup flags n = some (i, f)) :
    parseLoop strict flags "" ((pre ++ n ++ "=" ++ v) :: rest) =
      parseLoop strict (setAt flags i v) "" rest := by
  have hne : ¬ ((pre ++ n ++ "=" ++ v) = "-" ∨ (pre ++ n ++ "=" ++ v) = "--") := by
    have h1 := preName_tail_ne_term hpre hn ("=" ++ v)
    have he : pre ++ n ++ ("=" ++ v) = pre ++ n ++ "=" ++ v := by
      apply str_ext
      simp [data_append]
    rw [he] at h1
    exact h1
  rw [parseLoop]
  simp only [hne, if_false]
  rw [openTok_openEq strict flags rest pre v i f hpre hn hlk]
  simp

/-- Pending argument-taking flag consumes a non-flag-looking value
token. -/
theorem parseLoop_pending_value {key : String} (strict : Bool)
    (flags : List Flag) (v : String) (rest : List String) (i : Nat) (f : Flag)
    (hk : key ≠ "") (hlk : flagLookup flags key = some (i, f))
    (hf : f.hasArg = true) (c : Char) (cs : List Char)
    (hv : v.data = c :: cs) (hc : c ≠ '-') :
    parseLoop strict flags key (v :: rest) =
      parseLoop strict (setAt flags i v) "" rest := by
  have hvne : ¬ (v = "-" ∨ v = "--") := by
    rintro (h | h) <;>
      (have h2 := congrArg String.data h
       rw [hv] at h2
       simp only [show ("-" : String).data = ['-'] from rfl,
         show ("--" : String).data = ['-', '-'] from rfl] at h2
       simp at h2) <;>
      first
        | exact hc h2.1
        | exact hc h2
  rw [parseLoop]
  simp [hvne, hk, hlk, hf, hv, hc]

/-- Pending key that resolves to nothing: strict mode fails at the
next token (or at end of input); lenient mode consumes every further
token (none of `-`/`--` among them) and ends with no positional
arguments. -/
theorem parseLoop_unknown_pending {key : String} (flags : List Flag)
    (rest : List String) (hk : key ≠ "")
    (hlk : flagLookup flags key = none)
    (hrest : "-" ∉ rest ∧ "--" ∉ rest) :
    parseLoop false flags key rest = .ok [] flags ∧
    parseLoop true flags key rest = .err (.undefinedFlag key) flags := by
  induction rest with
  | nil =>
    constructor <;> (rw [parseLoop]; simp [parseFinish, hk, hlk])
  | cons r rs ih =>
    have hr : ¬ (r = "-" ∨ r = "--") := by
      rintro (h | h) <;> subst h <;> simp at hrest
    have hrs : "-" ∉ rs ∧ "--" ∉ rs := by
      refine ⟨fun hm => ?_, fun hm => ?_⟩ <;> simp [hm] at hrest
    constructor <;> (rw [parseLoop]; simp [hr, hk, hlk, (ih hrs).1, (ih hrs).2])

theorem flagLookup_single (f : Flag) (key : String) :
    flagLookup [f] key = if keyMatches f key then some (0, f) else none := rfl

theorem keyMatches_self (f : Flag) : keyMatches f f.name = true := by
  simp [keyMatches]

theorem preseed_name (env : String → Option String) (f : Flag) :
    (f.preseed env).name = f.name := by
  unfold Flag.preseed
  cases env f.envKey <;> simp [Flag.set]

theorem preseed_hasArg (env : String → Option String) (f : Flag) :
    (f.preseed env).hasArg = f.hasArg := by
  unfold Flag.preseed
  cases env f.envKey <;> simp [Flag.set]

theorem preseed_envSome {env : String → Option String} {f : Flag} {e : String}
    (h : env f.envKey = some e) : f.preseed env = f.set e := by
  unfold Flag.preseed
  rw [h]

theorem preseed_envNone {env : String → Option String} {f : Flag}
    (h : env f.envKey = none) : f.preseed env = f := by
  unfold Flag.preseed
  rw [h]

theorem flagLookup_single_name (env : String → Option String) (f : Flag) :
    flagLookup [f.preseed env] f.name = some (0, f.preseed env) := by
  rw [flagLookup_single]
  have : keyMatches (f.preseed env) f.name = true := by
    simp [keyMatches, preseed_name]
  rw [this]
  simp

theorem data_ne_nil_of_ne_empty {v : String} (h : v ≠ "") : v.data ≠ [] := by
  intro hd
  exact h (str_ext (by simpa using hd))

/-! ## C1 -/

/-- C1 counterexample: under lenient mode with a pending unknown key,
the scanner does NOT re-examine the current token — it consumes and
discards it (and keeps the unknown key pending), so
`Parse ["-undefined", "x"]` in lenient mode returns NO positional
arguments rather than `["x"]` unchanged. -/
theorem parse_lenient_drops_tokens :
    Parse (fun _ => none) ["-undefined", "x"] [] false = .ok [] [] ∧
    ParseOutcome.ok [] [] ≠ ParseOutcome.ok ["x"] ([] : List Flag) := by
  exact ⟨rfl, by decide⟩

/-- C1 amended: when an unknown flag key is pending, lenient mode
consumes (discards) the current token and keeps the unknown key
pending, so every later token up to a `-`/`--` terminator is also
discarded: `"-undefined"` followed by positional tokens returns no
error but NO positional arguments; strict mode returns
`UndefinedFlagError("undefined")`. -/
theorem parse_lenient_unknown_key (env : String → Option String)
    (flags : List Flag) (rest : List String)
    (hlk : flagLookup (flags.map (Flag.preseed env)) "undefined" = none)
    (hrest : "-" ∉ rest ∧ "--" ∉ rest) :
    Parse env ("-undefined" :: rest) flags false =
      .ok [] (flags.map (Flag.preseed env)) ∧
    Parse env ("-undefined" :: rest) flags true =
      .err (.undefinedFlag "undefined") (flags.map (Flag.preseed env)) := by
  have hv : validName "undefined" = true := by decide
  have hs : ("-" ++ "undefined" : String) = "-undefined" := rfl
  have hopen : ∀ st, parseLoop st (flags.map (Flag.preseed env)) ""
      ("-undefined" :: rest) =
      parseLoop st (flags.map (Flag.preseed env)) "undefined" rest := by
    intro st
    rw [← hs]
    exact parseLoop_open st (flags.map (Flag.preseed env)) rest "-" (Or.inl rfl) hv
  have hu := parseLoop_unknown_pending (flags.map (Flag.preseed env)) rest
    (by decide) hlk hrest
  constructor
  · show parseLoop false (flags.map (Flag.preseed env)) "" _ = _
    rw [hopen false]
    exact hu.1
  · show parseLoop true (flags.map (Flag.preseed env)) "" _ = _
    rw [hopen true]
    exact hu.2

/-- Witness for C1 (amended) at a concrete input. -/
theorem parse_lenient_unknown_key_witness :
    (flagLookup ([] : List Flag) "undefined" = none ∧
     "-" ∉ ["a", "b"] ∧ "--" ∉ ["a", "b"]) ∧
    (Parse (fun _ => none) ["-undefined", "a", "b"] [] false = .ok [] [] ∧
     Parse (fun _ => none) ["-undefined", "a", "b"] [] true =
       .err (.undefinedFlag "undefined") []) :=
  ⟨⟨rfl, by decide, by decide⟩,
   parse_lenient_unknown_key (fun _ => none) [] ["a", "b"] rfl ⟨by decide, by decide⟩⟩

/-! ## C4 -/

/-- C4 counterexample: the empty string is a value token that does not
look like a flag, yet `["-flag", ""]` panics (out-of-range index)
while `["-flag="]` parses successfully — the space-separated and
`=` forms are NOT equivalent for every non-flag value token. -/
theorem parse_forms_not_equivalent :
    Parse (fun _ => none) ["-flag", ""]
      [{ name := "flag", aliasName := "", hasArg := true, envKey := "K",
         value := "", count := 0, defaultValue := "" }] true =
      .panic [{ name := "flag", aliasName := "", hasArg := true, envKey := "K",
                value := "", count := 0, defaultValue := "" }] ∧
    Parse (fun _ => none) ["-flag="]
      [{ name := "flag", aliasName := "", hasArg := true, envKey := "K",
         value := "", count := 0, defaultValue := "" }] true =
      .ok [] [{ name := "flag", aliasName := "", hasArg := true, envKey := "K",
                value := "", count := 1, defaultValue := "" }] ∧
    ParseOutcome.panic
      [{ name := "flag", aliasName := "", hasArg := true, envKey := "K",
         value := "", count := 0, defaultValue := "" }] ≠
    ParseOutcome.ok []
      [{ name := "flag", aliasName := "", hasArg := true, envKey := "K",
         value := "", count := 1, defaultValue := "" }] := by
  exact ⟨rfl, rfl, by decide⟩

/-- C4 amended: for every string-kind (argument-taking) flag and every
NON-EMPTY value token not leading with `-`, the four forms
`-flag value`, `-flag=value`, `--flag value`, `--flag=value` produce
identical post-parse state: the flag set once to the value on top of
its environment-seeded state, and no residual positional arguments. -/
theorem parse_forms_equivalent (f : Flag) (env : String → Option String)
    (strict : Bool) (v : String) (hf : f.hasArg = true)
    (hn : validName f.name = true) (hv : v ≠ "")
    (hvh : v.data.head? ≠ some '-') :
    Parse env ["-" ++ f.name, v] [f] strict = .ok [] [(f.preseed env).set v] ∧
    Parse env ["-" ++ f.name ++ "=" ++ v] [f] strict =
      .ok [] [(f.preseed env).set v] ∧
    Parse env ["--" ++ f.name, v] [f] strict = .ok [] [(f.preseed env).set v] ∧
    Parse env ["--" ++ f.name ++ "=" ++ v] [f] strict =
      .ok [] [(f.preseed env).set v] := by
  obtain ⟨c, cs, hvd⟩ : ∃ c cs, v.data = c :: cs := by
    rcases hd : v.data with _ | ⟨c, cs⟩
    · exact absurd hd (data_ne_nil_of_ne_empty hv)
    · exact ⟨c, cs, rfl⟩
  have hc : c ≠ '-' := by
    intro he
    apply hvh
    rw [hvd, he]
    rfl
  have hk : f.name ≠ "" := validName_ne_empty hn
  have hlk : flagLookup [f.preseed env] f.name = some (0, f.preseed env) :=
    flagLookup_single_name env f
  have hga : (f.preseed env).hasArg = true := by rw [preseed_hasArg, hf]
  have hfin : parseLoop strict (setAt [f.preseed env] 0 v) "" [] =
      .ok [] [(f.preseed env).set v] := by
    rw [parseLoop, parseFinish]
    simp [setAt]
  refine ⟨?_, ?_, ?_, ?_⟩
  · show parseLoop strict [f.preseed env] "" _ = _
    rw [parseLoop_open strict [f.preseed env] [v] "-" (Or.inl rfl) hn,
      parseLoop_pending_value strict [f.preseed env] v [] 0 (f.preseed env)
        hk hlk hga c cs hvd hc, hfin]
  · show parseLoop strict [f.preseed env] "" _ = _
    rw [parseLoop_openEq strict [f.preseed env] [] "-" v 0 (f.preseed env)
      (Or.inl rfl) hn hlk, hfin]
  · show parseLoop strict [f.preseed env] "" _ = _
    rw [parseLoop_open strict [f.preseed env] [v] "--" (Or.inr rfl) hn,
      parseLoop_pending_value strict [f.preseed env] v [] 0 (f.preseed env)
        hk hlk hga c cs hvd hc, hfin]
  · show parseLoop strict [f.preseed env] "" _ = _
    rw [parseLoop_openEq strict [f.preseed env] [] "--" v 0 (f.preseed env)
      (Or.inr rfl) hn hlk, hfin]

/-- Witness for C4 (amended) at a concrete input. -/
theorem parse_forms_equivalent_witness :
    (({ name := "flag", aliasName := "", hasArg := true, envKey := "K",
        value := "", count := 0, defaultValue := "" } : Flag).hasArg = true ∧
     validName "flag" = true ∧ ("val" : String) ≠ "" ∧
     ("val" : String).data.head? ≠ some '-') ∧
    Parse (fun _ => none) ["-flag", "val"]
      [{ name := "flag", aliasName := "", hasArg := true, envKey := "K",
         value := "", count := 0, defaultValue := "" }] true =
      .ok [] [{ name := "flag", aliasName := "", hasArg := true, envKey := "K",
                value := "val", count := 1, defaultValue := "" }] := by
  refine ⟨⟨rfl, by decide, by decide, by decide⟩, ?_⟩
  have h := (parse_forms_equivalent
    { name := "flag", aliasName := "", hasArg := true, envKey := "K",
      value := "", count := 0, defaultValue := "" }
    (fun _ => none) true "val" rfl (by decide) (by decide) (by decide)).1
  simpa [Flag.preseed, Flag.set] using h

/-! ## C3 -/

/-- C3: command-line value beats environment value beats default,
realized by write ordering: the default is the constructed value, the
environment pre-seed writes before the scan, and the command-line
write lands last — so with all three present the stored value is the
command-line one, with no command-line occurrence it is the
environment one, and with neither it is the default. -/
theorem parse_precedence (f : Flag) (strict : Bool) (e v : String)
    (hf : f.hasArg = true) (hn : validName f.name = true)
    (hdef : f.value = f.defaultValue) :
    Parse (fun k => if k = f.envKey then some e else none)
      ["-" ++ f.name ++ "=" ++ v] [f] strict = .ok [] [(f.set e).set v] ∧
    ((f.set e).set v).value = v ∧
    Parse (fun k => if k = f.envKey then some e else none) [] [f] strict =
      .ok [] [f.set e] ∧
    (f.set e).value = e ∧
    Parse (fun _ => none) [] [f] strict = .ok [] [f] ∧
    f.value = f.defaultValue := by
  have henv : (fun k => if k = f.envKey then some e else none) f.envKey = some e := by
    simp
  have hseed : f.preseed (fun k => if k = f.envKey then some e else none) = f.set e :=
    preseed_envSome henv
  have hnone : f.preseed (fun _ => none) = f := preseed_envNone rfl
  have hlk : flagLookup [f.set e] f.name = some (0, f.set e) := by
    rw [flagLookup_single]
    simp [keyMatches, Flag.set]
  refine ⟨?_, by simp [Flag.set], ?_, by simp [Flag.set], ?_, hdef⟩
  · show parseLoop strict [f.preseed _] "" _ = _
    rw [hseed,
      parseLoop_openEq strict [f.set e] [] "-" v 0 (f.set e) (Or.inl rfl) hn hlk,
      parseLoop, parseFinish]
    simp [setAt]
  · show parseLoop strict [f.preseed _] "" [] = _
    rw [hseed, parseLoop, parseFinish]
    simp
  · show parseLoop strict [f.preseed _] "" [] = _
    rw [hnone, parseLoop, parseFinish]
    simp

/-- Witness for C3 at a concrete input. -/
theorem parse_precedence_witness :
    (({ name := "flag", aliasName := "", hasArg := true, envKey := "K",
        value := "dv", count := 0, defaultValue := "dv" } : Flag).hasArg = true ∧
     validName "flag" = true ∧
     ({ name := "flag", aliasName := "", hasArg := true, envKey := "K",
        value := "dv", count := 0, defaultValue := "dv" } : Flag).value =
       ({ name := "flag", aliasName := "", hasArg := true, envKey := "K",
          value := "dv", count := 0, defaultValue := "dv" } : Flag).defaultValue) ∧
    Parse (fun k => if k = "K" then some "ev" else none) ["-flag=cv"]
      [{ name := "flag", aliasName := "", hasArg := true, envKey := "K",
         value := "dv", count := 0, defaultValue := "dv" }] true =
      .ok [] [{ name := "flag", aliasName := "", hasArg := true, envKey := "K",
                value := "cv", count := 2, defaultValue := "dv" }] := by
  refine ⟨⟨rfl, by decide, rfl⟩, ?_⟩
  have h := (parse_precedence
    { name := "flag", aliasName := "", hasArg := true, envKey := "K",
      value := "dv", count := 0, defaultValue := "dv" }
    true "ev" "cv" rfl (by decide) rfl).1
  simpa [Flag.set] using h

/-! ## C6 -/

/-- C6: an argument-taking flag whose value is missing fails with a
requires-argument error naming the pending key — when the input ends
with the key pending, and when the token after the key leads with a
hyphen; in particular `["-gs1"]` for a string-kind flag `gs1` returns
`RequiresArgError("gs1")`. -/
theorem parse_requires_arg (f : Flag) (env : String → Option String)
    (strict : Bool) (hf : f.hasArg = true) (hn : validName f.name = true) :
    Parse env ["-" ++ f.name] [f] strict =
      .err (.requiresArg f.name) [f.preseed env] ∧
    (∀ t rest c cs, t.data = c :: cs → c = '-' →
      Parse env (("-" ++ f.name) :: t :: rest) [f] strict =
        .err (.requiresArg f.name) [f.preseed env]) ∧
    Parse (fun _ => none) ["-gs1"]
      [{ name := "gs1", aliasName := "", hasArg := true, envKey := "K",
         value := "", count := 0, defaultValue := "" }] strict =
      .err (.requiresArg "gs1")
        [{ name := "gs1", aliasName := "", hasArg := true, envKey := "K",
           value := "", count := 0, defaultValue := "" }] := by
  have hk : f.name ≠ "" := validName_ne_empty hn
  have hlk : flagLookup [f.preseed env] f.name = some (0, f.preseed env) :=
    flagLookup_single_name env f
  have hga : (f.preseed env).hasArg = true := by rw [preseed_hasArg, hf]
  refine ⟨?_, ?_, ?_⟩
  · show parseLoop strict [f.preseed env] "" _ = _
    rw [parseLoop_open strict [f.preseed env] [] "-" (Or.inl rfl) hn]
    rw [parseLoop, parseFinish]
    simp [hk, hlk, hga]
  · intro t rest c cs htd hcdash
    show parseLoop strict [f.preseed env] "" _ = _
    rw [parseLoop_open strict [f.preseed env] (t :: rest) "-" (Or.inl rfl) hn]
    rw [parseLoop]
    by_cases ht : t = "-" ∨ t = "--"
    · rw [if_pos ht, parseFinish]
      simp [hk, hlk, hga]
    · rw [if_neg ht]
      simp [hk, hlk, hga, htd, hcdash]
  · cases strict <;> rfl

/-- Witness for C6 at a concrete input. -/
theorem parse_requires_arg_witness :
    (({ name := "gs1", aliasName := "", hasArg := true, envKey := "K",
        value := "", count := 0, defaultValue := "" } : Flag).hasArg = true ∧
     validName "gs1" = true) ∧
    Parse (fun _ => none) ["-gs1"]
      [{ name := "gs1", aliasName := "", hasArg := true, envKey := "K",
         value := "", count := 0, defaultValue := "" }] true =
      .err (.requiresArg "gs1")
        [{ name := "gs1", aliasName := "", hasArg := true, envKey := "K",
           value := "", count := 0, defaultValue := "" }] := by
  refine ⟨⟨rfl, by decide⟩, ?_⟩
  have h := (parse_requires_arg
    { name := "gs1", aliasName := "", hasArg := true, envKey := "K",
      value := "", count := 0, defaultValue := "" }
    (fun _ => none) true rfl (by decide)).1
  simpa [Flag.preseed] using h

/-! ## C10 -/

/-- Final flag store of an outcome (what the caller observes through
the mutated pointers). -/
def outcomeFlags : ParseOutcome → List Flag
  | .ok _ fs => fs
  | .err _ fs => fs
  | .panic fs => fs

/-- One store extends another: same length, identification fields
unchanged, occurrence counts never decreased. -/
def storeExtends (fs0 fs1 : List Flag) : Prop :=
  fs0.length = fs1.length ∧
  ∀ (j : Nat) (f0 f1 : Flag), fs0[j]? = some f0 → fs1[j]? = some f1 →
    f1.name = f0.name ∧ f1.aliasName = f0.aliasName ∧
    f1.envKey = f0.envKey ∧ f0.count ≤ f1.count

theorem storeExtends_refl (fs : List Flag) : storeExtends fs fs := by
  refine ⟨rfl, fun j f0 f1 h0 h1 => ?_⟩
  rw [h0] at h1
  cases h1
  exact ⟨rfl, rfl, rfl, Nat.le_refl _⟩

theorem storeExtends_trans {a b c : List Flag} (h1 : storeExtends a b)
    (h2 : storeExtends b c) : storeExtends a c := by
  obtain ⟨hl1, hp1⟩ := h1
  obtain ⟨hl2, hp2⟩ := h2
  refine ⟨hl1.trans hl2, fun j f0 f2 h0 h2c => ?_⟩
  rcases hb : b[j]? with _ | f1
  · exfalso
    have hja : j < a.length := by
      by_contra hge
      rw [List.getElem?_eq_none (Nat.le_of_not_lt hge)] at h0
      cases h0
    have hjb : j < b.length := hl1 ▸ hja
    rw [List.getElem?_eq_getElem hjb] at hb
    cases hb
  · obtain ⟨n1, a1, e1, c1⟩ := hp1 j f0 f1 h0 hb
    obtain ⟨n2, a2, e2, c2⟩ := hp2 j f1 f2 hb h2c
    exact ⟨n2.trans n1, a2.trans a1, e2.trans e1, c1.trans c2⟩

theorem setAt_length (fs : List Flag) : ∀ (i : Nat) (v : String),
    (setAt fs i v).length = fs.length := by
  induction fs with
  | nil => intro i v; rfl
  | cons f fs ih =>
    intro i v
    cases i with
    | zero => simp [setAt]
    | succ i => simp [setAt, ih]

theorem setAt_getElem? (fs : List Flag) : ∀ (i : Nat) (v : String) (j : Nat),
    (setAt fs i v)[j]? =
      if j = i then (fs[j]?).map (fun f => f.set v) else fs[j]? := by
  induction fs with
  | nil => intro i v j; simp [setAt]
  | cons f fs ih =>
    intro i v j
    cases i with
    | zero =>
      cases j with
      | zero => simp [setAt]
      | succ j => simp [setAt]
    | succ i =>
      cases j with
      | zero => simp [setAt]
      | succ j =>
        simp [setAt, ih i v j]

theorem storeExtends_setAt (fs : List Flag) (i : Nat) (v : String) :
    storeExtends fs (setAt fs i v) := by
  refine ⟨(setAt_length fs i v).symm, fun j f0 f1 h0 h1 => ?_⟩
  rw [setAt_getElem? fs i v j] at h1
  by_cases hj : j = i
  · rw [if_pos hj, h0] at h1
    cases h1
    exact ⟨rfl, rfl, rfl, Nat.le_succ _⟩
  · rw [if_neg hj, h0] at h1
    cases h1
    exact ⟨rfl, rfl, rfl, Nat.le_refl _⟩

theorem openTok_extends (strict : Bool) (flags : List Flag) (arg : String)
    (rest : List String) :
    (∀ o, openTok strict flags arg rest = .done o → outcomeFlags o = flags) ∧
    (∀ fl2 k2, openTok strict flags arg rest = .cont fl2 k2 →
      storeExtends flags fl2) := by
  constructor
  · intro o ho
    unfold openTok at ho
    repeat' split at ho
    all_goals (cases ho <;> rfl)
  · intro fl2 k2 hc
    unfold openTok at hc
    repeat' split at hc
    all_goals
      (cases hc <;>
       first
         | exact storeExtends_refl _
         | exact storeExtends_setAt _ _ _)

theorem parseFinish_extends (strict : Bool) (flags : List Flag) (key : String)
    (args : List String) :
    storeExtends flags (outcomeFlags (parseFinish strict flags key args)) := by
  unfold parseFinish
  repeat' split
  all_goals first
    | exact storeExtends_refl _
    | (simp [outcomeFlags]; exact storeExtends_setAt _ _ _)
    | exact storeExtends_setAt _ _ _

/-- The scan loop never rolls a flag mutation back: whatever the
outcome, the final store extends the input store. -/
theorem parseLoop_extends (strict : Bool) : ∀ (args : List String)
    (flags : List Flag) (key : String),
    storeExtends flags (outcomeFlags (parseLoop strict flags key args)) := by
  intro args
  induction args with
  | nil =>
    intro flags key
    rw [parseLoop]
    exact parseFinish_extends strict flags key []
  | cons arg rest ih =>
    intro flags key
    rw [parseLoop]
    by_cases h1 : arg = "-" ∨ arg = "--"
    · rw [if_pos h1]
      exact parseFinish_extends strict flags key (arg :: rest)
    · rw [if_neg h1]
      by_cases h2 : key ≠ ""
      · rw [if_pos h2]
        split
        next hl =>
          cases strict
          · simpa using ih flags key
          · simp [outcomeFlags, storeExtends_refl]
        next i f hl =>
          by_cases hha : f.hasArg = false
          · rw [if_pos hha]
            split
            next o ho =>
              have he := (openTok_extends strict (setAt flags i "true") arg rest).1 o ho
              rw [he]
              exact storeExtends_setAt flags i "true"
            next fl2 k2 ho =>
              have he := (openTok_extends strict (setAt flags i "true") arg rest).2 fl2 k2 ho
              exact storeExtends_trans (storeExtends_setAt flags i "true")
                (storeExtends_trans he (ih fl2 k2))
          · rw [if_neg hha]
            split
            next hd => exact storeExtends_refl flags
            next c cs hd =>
              by_cases hc : c = '-'
              · simp [hc, outcomeFlags, storeExtends_refl]
              · rw [if_neg hc]
                exact storeExtends_trans (storeExtends_setAt flags i arg)
                  (ih (setAt flags i arg) "")
      · rw [if_neg h2]
        split
        next o ho =>
          have he := (openTok_extends strict flags arg rest).1 o ho
          rw [he]
          exact storeExtends_refl flags
        next fl2 k2 ho =>
          have he := (openTok_extends strict flags arg rest).2 fl2 k2 ho
          exact storeExtends_trans he (ih fl2 k2)

/-- C10: `Parse` is not atomic on error — when it returns an error the
flag stores reflect every mutation made before the failing token: the
store has the same shape, each flag keeps at least the occurrence
count it had after environment pre-seeding, and a flag seeded from the
environment reports `IsSet` even though the parse failed. -/
theorem parse_error_not_atomic (env : String → Option String)
    (args : List String) (flags : List Flag) (strict : Bool)
    (e : ParseError) (fs : List Flag)
    (h : Parse env args flags strict = .err e fs) :
    fs.length = flags.length ∧
    ∀ (j : Nat) (f0 : Flag), flags[j]? = some f0 →
      ∃ f1, fs[j]? = some f1 ∧ f1.name = f0.name ∧
        (f0.preseed env).count ≤ f1.count ∧
        ((env f0.envKey).isSome = true → f1.IsSet = true) := by
  have hx := parseLoop_extends strict args (flags.map (Flag.preseed env)) ""
  have hP : Parse env args flags strict =
      parseLoop strict (flags.map (Flag.preseed env)) "" args := rfl
  rw [hP] at h
  rw [h] at hx
  obtain ⟨hlen, hpt⟩ := hx
  have hlen2 : fs.length = flags.length := by
    simpa using hlen.symm
  refine ⟨hlen2, fun j f0 hj => ?_⟩
  have hjlt : j < flags.length := by
    by_contra hge
    rw [List.getElem?_eq_none (Nat.le_of_not_lt hge)] at hj
    cases hj
  have hj2 : (flags.map (Flag.preseed env))[j]? = some (f0.preseed env) := by
    rw [List.getElem?_map, hj]
    rfl
  have hjlt2 : j < fs.length := by
    rw [hlen2]
    exact hjlt
  rcases hfs : fs[j]? with _ | f1
  · rw [List.getElem?_eq_getElem hjlt2] at hfs
    cases hfs
  · obtain ⟨hn, _, _, hc⟩ := hpt j (f0.preseed env) f1 hj2 hfs
    refine ⟨f1, rfl, by rw [hn, preseed_name], hc, fun hsome => ?_⟩
    have h1 : 1 ≤ (f0.preseed env).count := by
      unfold Flag.preseed
      rcases he : env f0.envKey with _ | v
      · rw [he] at hsome
        cases hsome
      · simp [Flag.set]
    have h2 : 1 ≤ f1.count := h1.trans hc
    simp only [Flag.IsSet, gt_iff_lt, decide_eq_true_eq]
    omega

/-- Witness for C10 at a concrete input: the first token sets the flag
(on top of its environment seed), the second is an undefined flag that
fails the parse, and the error-state store still holds the mutation. -/
theorem parse_error_not_atomic_witness :
    (Parse (fun k => if k = "E" then some "ev" else none) ["-a=v1", "-q"]
      [{ name := "a", aliasName := "", hasArg := true, envKey := "E",
         value := "", count := 0, defaultValue := "" }] true =
      .err (.undefinedFlag "q")
        [{ name := "a", aliasName := "", hasArg := true, envKey := "E",
           value := "v1", count := 2, defaultValue := "" }]) ∧
    ([{ name := "a", aliasName := "", hasArg := true, envKey := "E",
        value := "v1", count := 2, defaultValue := "" }] : List Flag).length =
      ([{ name := "a", aliasName := "", hasArg := true, envKey := "E",
          value := "", count := 0, defaultValue := "" }] : List Flag).length ∧
    ∀ (j : Nat) (f0 : Flag),
      ([{ name := "a", aliasName := "", hasArg := true, envKey := "E",
          value := "", count := 0, defaultValue := "" }] : List Flag)[j]? = some f0 →
      ∃ f1, ([{ name := "a", aliasName := "", hasArg := true, envKey := "E",
                value := "v1", count := 2, defaultValue := "" }] : List Flag)[j]? =
          some f1 ∧ f1.name = f0.name ∧
        (f0.preseed (fun k => if k = "E" then some "ev" else none)).count ≤ f1.count ∧
        (((fun k => if k = "E" then some "ev" else none) f0.envKey).isSome = true →
          f1.IsSet = true) := by
  refine ⟨rfl, ?_⟩
  exact parse_error_not_atomic (fun k => if k = "E" then some "ev" else none)
    ["-a=v1", "-q"]
    [{ name := "a", aliasName := "", hasArg := true, envKey := "E",
       value := "", count := 0, defaultValue := "" }] true
    (.undefinedFlag "q")
    [{ name := "a", aliasName := "", hasArg := true, envKey := "E",
       value := "v1", count := 2, defaultValue := "" }] rfl

/-! ## C2 -/

/-- Duplicate-registration errors among `CliError`. -/
def isDupErr : CliError → Bool
  | .duplicateFlag _ => true
  | .duplicateShortFlag _ _ => true
  | _ => false

theorem deriveEnvKey_name (cliName : String) (f : Flag) :
    (deriveEnvKey cliName f).name = f.name := by
  unfold deriveEnvKey
  split <;> rfl

theorem deriveEnvKey_aliasName (cliName : String) (f : Flag) :
    (deriveEnvKey cliName f).aliasName = f.aliasName := by
  unfold deriveEnvKey
  split <;> rfl

theorem lookupAssoc_append {α : Type} (m l : List (String × α)) (k : String) :
    lookupAssoc (m ++ l) k =
      match lookupAssoc m k with
      | some v => some v
      | none => lookupAssoc l k := by
  unfold lookupAssoc
  induction m with
  | nil => simp
  | cons p ps ih =>
    by_cases hp : (p.1 == k) = true
    · simp [List.find?, hp]
    · simp only [Bool.not_eq_true] at hp
      simp [List.find?, hp] at ih ⊢
      exact ih

theorem lookupAssoc_append_isSome {α : Type} {m : List (String × α)}
    {k : String} (h : (lookupAssoc m k).isSome = true) (l : List (String × α)) :
    (lookupAssoc (m ++ l) k).isSome = true := by
  rw [lookupAssoc_append]
  rcases hm : lookupAssoc m k with _ | v
  · rw [hm] at h
    cases h
  · simp

theorem lookupAssoc_self_inserted {α : Type} {m : List (String × α)}
    {k : String} (h : lookupAssoc m k = none) (v : α) (l : List (String × α)) :
    (lookupAssoc (m ++ (k, v) :: l) k).isSome = true := by
  rw [lookupAssoc_append, h]
  simp [lookupAssoc, List.find?]

/-- Once the accumulated flag map holds the name (or the non-empty
alias) of a later flag, `initFlags` must fail, with a
duplicate-registration error. -/
theorem initFlags_err_reach (cliName : String) (g : Flag) (fs3 : List Flag)
    (K : String) (hK : K = g.name ∨ (g.aliasName ≠ "" ∧ K = g.aliasName)) :
    ∀ (fs2 : List Flag) (m : List (String × Flag)),
      (lookupAssoc m K).isSome = true →
      ∃ e, initFlags cliName m (fs2 ++ g :: fs3) = .error e ∧
        isDupErr e = true := by
  intro fs2
  induction fs2 with
  | nil =>
    intro m hm
    rw [List.nil_append, initFlags]
    split
    next _ _ => exact ⟨_, rfl, rfl⟩
    next hname =>
      rcases hK with hK | ⟨hal, hK⟩
      · exfalso
        rw [deriveEnvKey_name, ← hK] at hname
        rw [hname] at hm
        cases hm
      · have hal2 : ¬ (deriveEnvKey cliName g).aliasName = "" := by
          rw [deriveEnvKey_aliasName]
          exact hal
        rw [if_neg hal2]
        have hsome : (lookupAssoc
            (m ++ [((deriveEnvKey cliName g).name, deriveEnvKey cliName g)])
            (deriveEnvKey cliName g).aliasName).isSome = true := by
          apply lookupAssoc_append_isSome
          rw [deriveEnvKey_aliasName, ← hK]
          exact hm
        split
        next dup hdup => exact ⟨_, rfl, rfl⟩
        next hnone =>
          rw [hnone] at hsome
          cases hsome
  | cons f0 fs2 ih =>
    intro m hm
    rw [List.cons_append, initFlags]
    split
    next _ _ => exact ⟨_, rfl, rfl⟩
    next hname =>
      by_cases hal : (deriveEnvKey cliName f0).aliasName = ""
      · rw [if_pos hal]
        obtain ⟨e, he, hd⟩ := ih
          (m ++ [((deriveEnvKey cliName f0).name, deriveEnvKey cliName f0)])
          (lookupAssoc_append_isSome hm _)
        exact ⟨e, by rw [he], hd⟩
      · rw [if_neg hal]
        split
        next dup hdup => exact ⟨_, rfl, rfl⟩
        next hnone =>
          obtain ⟨e, he, hd⟩ := ih
            (m ++ [((deriveEnvKey cliName f0).name, deriveEnvKey cliName f0),
                   ((deriveEnvKey cliName f0).aliasName, deriveEnvKey cliName f0)])
            (lookupAssoc_append_isSome hm _)
          exact ⟨e, by rw [he], hd⟩

/-- A flag list holding two flags with colliding keys (same name, or a
later alias equal to an earlier name) makes `initFlags` fail with a
duplicate-registration error, whatever precedes, separates or follows
them. -/
theorem initFlags_dup_err (cliName : String) (f g : Flag) (fs2 fs3 : List Flag)
    (hcol : g.name = f.name ∨ (g.aliasName ≠ "" ∧ g.aliasName = f.name)) :
    ∀ (fs1 : List Flag) (m : List (String × Flag)),
      ∃ e, initFlags cliName m (fs1 ++ f :: (fs2 ++ g :: fs3)) = .error e ∧
        isDupErr e = true := by
  have hK : f.name = g.name ∨ (g.aliasName ≠ "" ∧ f.name = g.aliasName) := by
    rcases hcol with h | ⟨h1, h2⟩
    · exact Or.inl h.symm
    · exact Or.inr ⟨h1, h2.symm⟩
  intro fs1
  induction fs1 with
  | nil =>
    intro m
    rw [List.nil_append, initFlags]
    split
    next _ _ => exact ⟨_, rfl, rfl⟩
    next hname =>
      have hself : ∀ (l : List (String × Flag)),
          (lookupAssoc (m ++ ((deriveEnvKey cliName f).name, deriveEnvKey cliName f) :: l)
            f.name).isSome = true := by
        intro l
        rw [deriveEnvKey_name]
        rw [deriveEnvKey_name] at hname
        exact lookupAssoc_self_inserted hname _ l
      by_cases hal : (deriveEnvKey cliName f).aliasName = ""
      · rw [if_pos hal]
        obtain ⟨e, he, hd⟩ := initFlags_err_reach cliName g fs3 f.name hK fs2
          (m ++ [((deriveEnvKey cliName f).name, deriveEnvKey cliName f)]) (hself [])
        exact ⟨e, by rw [he], hd⟩
      · rw [if_neg hal]
        split
        next dup hdup => exact ⟨_, rfl, rfl⟩
        next hnone =>
          obtain ⟨e, he, hd⟩ := initFlags_err_reach cliName g fs3 f.name hK fs2
            (m ++ [((deriveEnvKey cliName f).name, deriveEnvKey cliName f),
                   ((deriveEnvKey cliName f).aliasName, deriveEnvKey cliName f)])
            (hself [((deriveEnvKey cliName f).aliasName, deriveEnvKey cliName f)])
          exact ⟨e, by rw [he], hd⟩
  | cons f0 fs1 ih =>
    intro m
    rw [List.cons_append, initFlags]
    split
    next _ _ => exact ⟨_, rfl, rfl⟩
    next hname =>
      by_cases hal : (deriveEnvKey cliName f0).aliasName = ""
      · rw [if_pos hal]
        obtain ⟨e, he, hd⟩ := ih
          (m ++ [((deriveEnvKey cliName f0).name, deriveEnvKey cliName f0)])
        exact ⟨e, by rw [he], hd⟩
      · rw [if_neg hal]
        split
        next dup hdup => exact ⟨_, rfl, rfl⟩
        next hnone =>
          obtain ⟨e, he, hd⟩ := ih
            (m ++ [((deriveEnvKey cliName f0).name, deriveEnvKey cliName f0),
                   ((deriveEnvKey cliName f0).aliasName, deriveEnvKey cliName f0)])
          exact ⟨e, by rw [he], hd⟩

/-- A handler that always succeeds (stands in for arbitrary opaque
business logic in the concrete examples). -/
def hNone : Handler := fun _ => none

/-- Two distinct flags sharing the name `x`. -/
def fx1 : Flag :=
  { name := "x", aliasName := "", hasArg := true, envKey := "K1",
    value := "", count := 0, defaultValue := "" }

/-- Second flag with the duplicate name `x`. -/
def fx2 : Flag :=
  { name := "x", aliasName := "", hasArg := true, envKey := "K2",
    value := "", count := 0, defaultValue := "" }

/-- The built-in help command as registered by `New`. -/
def helpCmdX : Command :=
  { name := "help", aliasName := "", flags := [], handler := hNone }

/-- The application `New` builds from the duplicate flag list. -/
def dupFlagCLI : CLIm :=
  { name := "app", strict := true, flags := [fx1, fx2], flagsMap := [],
    commands := [helpCmdX], commandsMap := [("help", helpCmdX)],
    version := "", afterParse := none, defaultHandler := hNone }

/-- C2 counterexample: registering two flags with the same name does
NOT fail at setup — `New` returns the application untouched — and the
duplicate is only caught when `run` initializes the flag map, i.e. at
dispatch time. -/
theorem duplicate_flags_pass_setup :
    CLIm.new "app" true [fx1, fx2] "" hNone hNone none = .ok dupFlagCLI ∧
    dupFlagCLI.run (fun _ => none) ["app"] =
      .ret (some (.duplicateFlag "x")) := by
  exact ⟨rfl, rfl⟩

/-- C2 amended: duplicate COMMAND registration (name or alias
collision) fails fast inside `Add` at setup time; duplicate FLAG
registration is not checked at setup — `New` accepts any flag list —
and the collision is detected by `initFlags` when `run` dispatches,
which then returns a duplicate-registration error. -/
theorem duplicate_registration_detection :
    (∀ (c : CLIm) (n : String) (h : Handler) (fl : List Flag) (al : String)
       (cmd : Command), lookupAssoc c.commandsMap (goToLower n) = some cmd →
       c.add n (some h) fl al =
         .error ("cli: duplicate command " ++ goToLower n)) ∧
    (∀ (c : CLIm) (n : String) (h : Handler) (fl : List Flag) (al : String)
       (dup : Command), lookupAssoc c.commandsMap (goToLower n) = none →
       al ≠ "" → lookupAssoc c.commandsMap al = some dup →
       c.add n (some h) fl al =
         .error ("cli: duplicate command alias " ++ al ++ " for " ++ dup.name)) ∧
    (∀ (name : String) (strict : Bool) (flags : List Flag) (hh dh : Handler)
       (ap : Option Handler),
       ∃ c, CLIm.new name strict flags "" hh dh ap = .ok c ∧
         c.flags = flags) ∧
    (∀ (c : CLIm) (env : String → Option String) (a : String)
       (rargs : List String) (fs1 fs2 fs3 : List Flag) (f g : Flag),
       c.flags = fs1 ++ f :: (fs2 ++ g :: fs3) → c.flagsMap = [] →
       (g.name = f.name ∨ (g.aliasName ≠ "" ∧ g.aliasName = f.name)) →
       ∃ e, c.run env (a :: rargs) = .ret (some e) ∧ isDupErr e = true) := by
  refine ⟨?_, ?_, ?_, ?_⟩
  · intro c n h fl al cmd hlk
    simp [CLIm.add, hlk]
  · intro c n h fl al dup hn hal hdup
    simp only [CLIm.add, hn]
    rw [if_neg hal]
    have : lookupAssoc (c.commandsMap ++
        [(goToLower n, { name := goToLower n, aliasName := al, flags := fl,
                         handler := h })]) al = some dup := by
      rw [lookupAssoc_append, hdup]
    simp [this]
  · intro name strict flags hh dh ap
    exact ⟨_, rfl, rfl⟩
  · intro c env a rargs fs1 fs2 fs3 f g hflags hmap hcol
    obtain ⟨e, he, hd⟩ := initFlags_dup_err c.name f g fs2 fs3 hcol fs1 []
    have hpm : c.parseM env (a :: rargs) c.flags = .err e := by
      simp only [CLIm.parseM]
      rw [hmap, hflags, he]
    refine ⟨e, ?_, hd⟩
    simp only [CLIm.run]
    rw [hpm]

/-- Witness for C2 (amended) at concrete inputs. -/
theorem duplicate_registration_detection_witness :
    (lookupAssoc dupFlagCLI.commandsMap (goToLower "HELP") = some helpCmdX ∧
     dupFlagCLI.add "HELP" (some hNone) [] "" =
       .error ("cli: duplicate command " ++ goToLower "HELP")) ∧
    (lookupAssoc dupFlagCLI.commandsMap (goToLower "other") = none ∧
     ("help" : String) ≠ "" ∧
     lookupAssoc dupFlagCLI.commandsMap "help" = some helpCmdX ∧
     dupFlagCLI.add "other" (some hNone) [] "help" =
       .error ("cli: duplicate command alias help for " ++ helpCmdX.name)) ∧
    (∃ c, CLIm.new "app" true [fx1, fx2] "" hNone hNone none = .ok c ∧
      c.flags = [fx1, fx2]) ∧
    (dupFlagCLI.flags = [] ++ fx1 :: ([] ++ fx2 :: []) ∧
     dupFlagCLI.flagsMap = [] ∧ (fx2.name = fx1.name ∨
       (fx2.aliasName ≠ "" ∧ fx2.aliasName = fx1.name)) ∧
     ∃ e, dupFlagCLI.run (fun _ => none) ["app"] = .ret (some e) ∧
       isDupErr e = true) := by
  refine ⟨⟨rfl, ?_⟩, ⟨rfl, by decide, rfl, ?_⟩, ?_, rfl, rfl, Or.inl rfl, ?_⟩
  · exact duplicate_registration_detection.1 dupFlagCLI "HELP" hNone [] ""
      helpCmdX rfl
  · have h := duplicate_registration_detection.2.1 dupFlagCLI "other" hNone []
      "help" helpCmdX rfl (by decide) rfl
    simpa using h
  · exact duplicate_registration_detection.2.2.1 "app" true [fx1, fx2]
      hNone hNone none
  · exact duplicate_registration_detection.2.2.2 dupFlagCLI (fun _ => none)
      "app" [] [] [] [] fx1 fx2 rfl rfl (Or.inl rfl)

end Cli
